import Mathlib

/-!
Verification development for the expense-tracking core
(services/expense_service.py, validators/expense_validator.py,
core/business_logic.py, processors/expense_processor.py).

Modelling conventions:
* Python Decimal values are modelled as rationals.  Decimal addition and
  subtraction on the amounts involved is exact in Python as well; Decimal
  division is rounded to the 28-digit default context in Python and is
  modelled here as exact rational division.
* datetime values are modelled at calendar-day granularity (year, month,
  day); only date comparisons and month arithmetic occur in the code paths
  under study.
* Raised Python exceptions are modelled with an Except monad; the error
  type distinguishes the business exceptions raised by the code from the
  built-in exceptions that can escape it.
* External collaborators (repositories) are modelled as function-valued
  parameters, and repository writes are returned explicitly as a log.
-/

/-- Calendar date, the part of a Python datetime that the code inspects. -/
structure DateTime where
  year : Nat
  month : Nat
  day : Nat
deriving DecidableEq, Repr

/-- Dynamic values that can sit in a raw expense dictionary. -/
inductive Value where
  | num (q : ℚ)
  | str (s : String)
  | dt (d : DateTime)
  | list (xs : List Value)

/-- Exceptions: the business exceptions declared by the code, and the
built-in Python exceptions that its code paths can raise. -/
inductive PyError where
  | invalidExpense (msg : String)
  | categoryNotFound (msg : String)
  | budgetLimitExceeded (msg : String)
  | invalidOperation
  | valueError
  | typeError
  | attributeError
  | keyError
  | divisionByZero
deriving DecidableEq, Repr

/-- Digit characters to a natural number, most significant first. -/
def natFromDigits (cs : List Char) : Nat :=
  cs.foldl (fun n c => 10 * n + (c.toNat - 48)) 0

/-- Core of the Decimal string grammar: an optional sign, an integer part
and an optional fractional part, at least one digit in total.  This is the
fragment of the Python Decimal constructor grammar the inputs exercise
(exponents, Infinity/NaN and surrounding whitespace do not appear). -/
def parseDecCore (cs : List Char) : Option ℚ :=
  let signAndRest : Int × List Char :=
    match cs with
    | '-' :: t => (-1, t)
    | '+' :: t => (1, t)
    | _ => (1, cs)
  let sign := signAndRest.1
  let body := signAndRest.2
  let intPart := body.takeWhile Char.isDigit
  let rest := body.dropWhile Char.isDigit
  match rest with
  | [] =>
      if intPart.isEmpty then none
      else some (sign * (natFromDigits intPart : ℚ))
  | '.' :: t =>
      let fracPart := t.takeWhile Char.isDigit
      let rest2 := t.dropWhile Char.isDigit
      if rest2.isEmpty ∧ ¬(intPart.isEmpty ∧ fracPart.isEmpty) then
        some (sign * ((natFromDigits intPart : ℚ) +
          (natFromDigits fracPart : ℚ) / (10 : ℚ) ^ fracPart.length))
      else none
  | _ => none

/-- Decimal(s) on a string. -/
def parseDec (s : String) : Option ℚ :=
  parseDecCore s.toList

/-- Decimal(str(v)) for a raw amount value: numeric values round-trip
through their decimal literal, strings are parsed by the Decimal grammar,
anything else fails to parse.  A parse failure is decimal.InvalidOperation. -/
def toDecimal : Value → Except Unit ℚ
  | .num q => .ok q
  | .str s =>
      match parseDec s with
      | some q => .ok q
      | none => .error ()
  | _ => .error ()

/-- Number of days in a month, with the Gregorian leap rule, as the
datetime module validates dates. -/
def daysInMonth (y m : Nat) : Nat :=
  if m = 2 then
    if y % 4 = 0 ∧ (y % 100 ≠ 0 ∨ y % 400 = 0) then 29 else 28
  else if m = 4 ∨ m = 6 ∨ m = 9 ∨ m = 11 then 30
  else 31

/-- datetime.fromisoformat on the YYYY-MM-DD date form, the fragment of
the ISO grammar the inputs exercise. -/
def parseISODate (s : String) : Option DateTime :=
  match s.toList with
  | [y1, y2, y3, y4, '-', m1, m2, '-', d1, d2] =>
      if [y1, y2, y3, y4, m1, m2, d1, d2].all Char.isDigit then
        let y := natFromDigits [y1, y2, y3, y4]
        let m := natFromDigits [m1, m2]
        let d := natFromDigits [d1, d2]
        if 1 ≤ m ∧ m ≤ 12 ∧ 1 ≤ d ∧ d ≤ daysInMonth y m then
          some ⟨y, m, d⟩
        else none
      else none
  | _ => none

/-- round(x, 2) on a Decimal: quantize to 2 fractional digits under the
default context rounding, which is ROUND_HALF_EVEN. -/
def roundHalfEven2 (q : ℚ) : ℚ :=
  let n := q * 100
  let f : ℤ := ⌊n⌋
  let r := n - f
  let c : ℤ :=
    if r < 1 / 2 then f
    else if 1 / 2 < r then f + 1
    else if f % 2 = 0 then f else f + 1
  (c : ℚ) / 100

/-- Modelled from the spec: rounding to 2 fractional digits with
round-half-up semantics (ties away from zero, as decimal ROUND_HALF_UP),
the rule section 4.2 of the spec prescribes.  Used only to compare the
code against the spec. -/
def roundHalfUpSpec2 (q : ℚ) : ℚ :=
  let n := q * 100
  let c : ℤ := if 0 ≤ n then ⌊n + 1 / 2⌋ else -⌊-n + 1 / 2⌋
  (c : ℚ) / 100

/-! ## ExpenseValidator (validators/expense_validator.py) -/

/-- A raw expense dictionary: the keys the validator and service touch.
A field is none when the key is absent from the dictionary. -/
structure RawExpense where
  amount : Option Value
  category : Option String
  date : Option Value
  description : Option String
  tags : Option Value

/-- Tag list validation loop: tags must be strings and non-empty after
stripping. -/
def validateTags : List Value → Except PyError Unit
  | [] => .ok ()
  | .str s :: rest =>
      if s.trim = "" then .error (.invalidExpense "Empty tags are not allowed")
      else validateTags rest
  | _ :: _ => .error (.invalidExpense "Tags must be strings")

/-- Continuation of validate_expense_data after the date check:
description length, then the tags block. -/
def validateRest (desc : String) (tags : Option Value) : Except PyError Unit :=
  if desc.length > 500 then
    .error (.invalidExpense "Description exceeds maximum length of 500 characters")
  else
    match tags with
    | none => .ok ()
    | some (.list xs) =>
        if xs.length > 10 then
          .error (.invalidExpense "Maximum number of tags (10) exceeded")
        else validateTags xs
    | some _ => .error (.invalidExpense "Tags must be a list")

/-- ExpenseValidator.validate_expense_data.  Checks run in source order and
fail fast.  The amount try-block catches only ValueError and TypeError, so
the decimal.InvalidOperation raised by an unparseable Decimal string
escapes uncaught (modelled as PyError.invalidOperation). -/
def validate_expense_data (e : RawExpense) : Except PyError Unit :=
  match e.amount with
  | none => .error (.invalidExpense "Missing required field: amount")
  | some amountV =>
  match e.category with
  | none => .error (.invalidExpense "Missing required field: category")
  | some _ =>
  match e.date with
  | none => .error (.invalidExpense "Missing required field: date")
  | some dateV =>
  match e.description with
  | none => .error (.invalidExpense "Missing required field: description")
  | some desc =>
  match toDecimal amountV with
  | .error _ => .error .invalidOperation
  | .ok amount =>
  if amount ≤ 0 then .error (.invalidExpense "Amount must be greater than 0")
  else
  match dateV with
  | .str s =>
      match parseISODate s with
      | none => .error (.invalidExpense "Invalid date format")
      | some _ => validateRest desc e.tags
  | _ => validateRest desc e.tags

/-! ## ExpenseService (services/expense_service.py) -/

/-- A category record as returned by the repository; budget_limit is None
or a Decimal. -/
structure Category where
  name : String
  budget_limit : Option ℚ
deriving DecidableEq, Repr

/-- Python truthiness of category.budget_limit: None is falsy, and so is
Decimal(0). -/
def limitTruthy : Option ℚ → Bool
  | none => false
  | some q => q ≠ 0

/-- The repository collaborator, as the read methods the service calls:
get_category and get_category_total (the latter takes the period start the
service passes, the first day of a month). -/
structure Repo where
  getCategory : String → String → Option Category
  getCategoryTotal : String → String → DateTime → ℚ

/-- datetime.now().replace(day=1): first day of the month containing d. -/
def firstOfMonth (d : DateTime) : DateTime :=
  { d with day := 1 }

/-- ExpenseService._check_budget_limits.  The wall-clock time of the call
(datetime.now()) is an explicit parameter now.  Note two source facts this
embedding preserves: the truthiness test on budget_limit, and the period
start datetime.now().replace(day=1), which depends on now and not on the
expense date. -/
def check_budget_limits (repo : Repo) (user : String) (cat : String)
    (amount : ℚ) (now : DateTime) : Except PyError Unit :=
  match repo.getCategory user cat with
  | none => .error (.categoryNotFound ("Category " ++ cat ++ " not found"))
  | some category =>
      if limitTruthy category.budget_limit then
        let limit := category.budget_limit.getD 0
        let current_total := repo.getCategoryTotal user cat (firstOfMonth now)
        if current_total + amount > limit then
          .error (.budgetLimitExceeded
            ("This expense would exceed the budget limit for category " ++
              category.name))
        else .ok ()
      else .ok ()

/-- Date step of _process_expense_data: a string date is parsed with
datetime.fromisoformat (whose failure, a ValueError, is uncaught here);
an already-typed value passes through unchanged. -/
def processDate : Option Value → Except PyError (Option Value)
  | none => .error .keyError
  | some (.str s) =>
      match parseISODate s with
      | none => .error .valueError
      | some d => .ok (some (.dt d))
  | some v => .ok (some v)

/-- Tag normalization loop of _process_expense_data: tag.strip().lower()
for each tag; a non-string tag would raise AttributeError. -/
def processTags : List Value → Except PyError (List Value)
  | [] => .ok []
  | .str s :: rest =>
      match processTags rest with
      | .ok ts => .ok (.str s.trim.toLower :: ts)
      | .error e => .error e
  | _ :: _ => .error .attributeError

/-- ExpenseService._process_expense_data: copies the record, rounds the
amount with round(Decimal(str(amount)), 2), parses a textual date, and
replaces tags by a new list of stripped and lower-cased tags. -/
def process_expense_data (e : RawExpense) : Except PyError RawExpense :=
  match e.amount with
  | none => .error .keyError
  | some v =>
  match toDecimal v with
  | .error _ => .error .invalidOperation
  | .ok q =>
  match processDate e.date with
  | .error err => .error err
  | .ok date2 =>
  match e.tags with
  | none =>
      .ok { e with amount := some (.num (roundHalfEven2 q)), date := date2 }
  | some (.list xs) =>
      match processTags xs with
      | .error err => .error err
      | .ok ts =>
          .ok { e with amount := some (.num (roundHalfEven2 q)),
                       date := date2, tags := some (.list ts) }
  | some _ => .error .typeError

/-- ExpenseService.create_expense.  Returns the outcome together with the
list of records passed to repository.create (the write log); the
repository stores the canonical record and returns it.  The catch-all
except block in the source only logs and re-raises, so it does not change
the outcome. -/
def create_expense (repo : Repo) (user : String) (e : RawExpense)
    (now : DateTime) : Except PyError RawExpense × List RawExpense :=
  match validate_expense_data e with
  | .error err => (.error err, [])
  | .ok () =>
  match e.category, e.amount with
  | some cat, some amountV =>
      match toDecimal amountV with
      | .error _ => (.error .invalidOperation, [])
      | .ok amount =>
      match check_budget_limits repo user cat amount now with
      | .error err => (.error err, [])
      | .ok () =>
      match process_expense_data e with
      | .error err => (.error err, [])
      | .ok processed => (.ok processed, [processed])
  | _, _ => (.error .keyError, [])

/-! ## MonthlySummaryEngine (core/business_logic.py) -/

/-- A persisted expense object as _generate_summary reads it. -/
structure Expense where
  amount : ℚ
  category : String
  tags : List String
  date : DateTime
deriving DecidableEq, Repr

/-- Python dict update pattern used throughout the aggregation code:
if k not in m: m[k] = 0; then m[k] += v.  Insertion order is preserved, a
new key is appended at the end. -/
def addTo {α : Type} [AddZeroClass α] :
    List (String × α) → String → α → List (String × α)
  | [], k, v => [(k, 0 + v)]
  | (k', v') :: rest, k, v =>
      if k' = k then (k', v' + v) :: rest else (k', v') :: addTo rest k v

/-- First-match lookup in an insertion-ordered dict. -/
def lookA {α : Type} : List (String × α) → String → Option α
  | [], _ => none
  | (k, v) :: rest, k' => if k = k' then some v else lookA rest k'

/-- Zero-pad a natural number to a width, as strftime does. -/
def padNum (w n : Nat) : String :=
  let s := toString n
  String.mk (List.replicate (w - s.length) '0') ++ s

/-- expense.date.strftime of the pattern percent-Y dash percent-m dash
percent-d. -/
def dateStr (d : DateTime) : String :=
  padNum 4 d.year ++ "-" ++ padNum 2 d.month ++ "-" ++ padNum 2 d.day

/-- The summary dictionary built by ExpenseBusinessLogic._generate_summary. -/
structure MonthlySummary where
  total : ℚ
  categories : List (String × ℚ)
  tags : List (String × ℚ)
  daily_totals : List (String × ℚ)
  count : Nat
deriving DecidableEq, Repr

/-- One iteration of the _generate_summary loop. -/
def summaryStep (s : MonthlySummary) (e : Expense) : MonthlySummary :=
  { s with
    total := s.total + e.amount,
    categories := addTo s.categories e.category e.amount,
    tags := e.tags.foldl (fun m t => addTo m t e.amount) s.tags,
    daily_totals := addTo s.daily_totals (dateStr e.date) e.amount }

/-- ExpenseBusinessLogic._generate_summary: single pass over the list,
count initialized to len(expenses). -/
def generate_summary (expenses : List Expense) : MonthlySummary :=
  expenses.foldl summaryStep
    { total := 0, categories := [], tags := [], daily_totals := [],
      count := expenses.length }

/-! ## SpendingPatternAnalyzer (processors/expense_processor.py) -/

/-- An expense dict as analyze_spending_pattern reads it; the amount is
the decimal value of Decimal(str(expense[amount])). -/
structure AExpense where
  amount : ℚ
  category : String
  date : DateTime
  description : String
deriving DecidableEq, Repr

/-- The dict stored in highest_expense. -/
structure HighestEntry where
  amount : ℚ
  category : String
  date : DateTime
deriving DecidableEq, Repr

/-- The dict appended to unusual_expenses. -/
structure UnusualEntry where
  amount : ℚ
  category : String
  date : DateTime
  description : String
deriving DecidableEq, Repr

/-- The analysis dictionary returned by analyze_spending_pattern. -/
structure Analysis where
  total_spent : ℚ
  average_daily : ℚ
  highest_expense : Option HighestEntry
  most_frequent_category : Option String
  category_distribution : List (String × ℚ)
  unusual_expenses : List UnusualEntry
deriving DecidableEq, Repr

/-- The analysis as pre-initialized, returned unchanged for empty input. -/
def emptyAnalysis : Analysis :=
  { total_spent := 0, average_daily := 0, highest_expense := none,
    most_frequent_category := none, category_distribution := [],
    unusual_expenses := [] }

/-- Accumulator of the first loop of analyze_spending_pattern. -/
structure LoopState where
  total : ℚ
  dist : List (String × ℚ)
  counts : List (String × Nat)
  highest : Option HighestEntry

/-- One iteration of the first loop: total, category distribution and
counts (insert 0 for a new key, then add), running maximum expense with
a strict comparison, so the first-seen expense wins exact ties. -/
def stepA (s : LoopState) (e : AExpense) : LoopState :=
  { total := s.total + e.amount,
    dist := addTo s.dist e.category e.amount,
    counts := addTo s.counts e.category 1,
    highest :=
      match s.highest with
      | none => some ⟨e.amount, e.category, e.date⟩
      | some h =>
          if e.amount > h.amount then some ⟨e.amount, e.category, e.date⟩
          else some h }

/-- max(items, key=count): Python max returns the first item whose key is
maximal over iteration (insertion) order. -/
def maxBySnd : List (String × Nat) → Option (String × Nat)
  | [] => none
  | x :: xs => some (xs.foldl (fun b y => if y.2 > b.2 then y else b) x)

/-- ExpenseProcessor.analyze_spending_pattern.  Empty input returns the
pre-initialized analysis before any division; otherwise, when period_days
is 0, the Decimal division total_spent / period_days raises DivisionByZero
for a nonzero dividend and InvalidOperation (DivisionUndefined) for the
0/0 case, which is reachable because the analyzer does not validate
amounts (there is no period validation in the source).  The second pass
flags an expense when amount > category_average * 2. -/
def analyze_spending_pattern (expenses : List AExpense) (period_days : ℤ) :
    Except PyError Analysis :=
  if expenses.isEmpty then .ok emptyAnalysis
  else
    let st := expenses.foldl stepA ⟨0, [], [], none⟩
    if period_days = 0 then
      .error (if st.total = 0 then .invalidOperation else .divisionByZero)
    else
      let category_averages :=
        st.dist.map (fun p => (p.1, p.2 / (((lookA st.counts p.1).getD 0 : Nat) : ℚ)))
      let unusual := (expenses.filter
          (fun e => decide ((lookA category_averages e.category).getD 0 * 2 < e.amount))).map
        (fun e => (⟨e.amount, e.category, e.date, e.description⟩ : UnusualEntry))
      .ok { total_spent := st.total,
            average_daily := st.total / (period_days : ℚ),
            highest_expense := st.highest,
            most_frequent_category := (maxBySnd st.counts).map Prod.fst,
            category_distribution := st.dist,
            unusual_expenses := unusual }

/-! ## Heap model of _process_expense_data for the aliasing claim

Python dicts and lists are mutable heap objects; expense_data.copy() is a
shallow copy, so the copy initially shares the tags list with the
original.  To state that the function does not mutate its argument, the
heap is explicit: immutable constituents (numbers, strings, datetimes)
are stored by value, the tags list by address.  In-place updates to the
freshly allocated copy are composed into its final value before
allocation, which is observationally equivalent because no other
reference to the copy exists during the call. -/

/-- An expense dict cell: immutable field values, tags by address. -/
structure HExpenseDict where
  amount : Option Value
  category : Option String
  date : Option Value
  description : Option String
  tags : Option Nat

/-- The heap: dict cells and string-list cells (post-validation tags are
strings), addressed by naturals from one shared address space. -/
structure Heap where
  dicts : List (Nat × HExpenseDict)
  lists : List (Nat × List String)

/-- First-match lookup by address. -/
def lookupAddr {α : Type} : List (Nat × α) → Nat → Option α
  | [], _ => none
  | (k, v) :: rest, k' => if k = k' then some v else lookupAddr rest k'

/-- An address strictly larger than every allocated address. -/
def freshAddr (h : Heap) : Nat :=
  (h.dicts.map Prod.fst ++ h.lists.map Prod.fst).foldl max 0 + 1

/-- _process_expense_data on the heap: reads the dict at address a,
builds the shallow copy with amount rounded, date parsed and (when tags
are present) a freshly allocated normalized tags list, and allocates the
copy at a fresh address.  Raising paths return the heap unchanged: every
heap effect of the function is an allocation. -/
def process_expense_data_heap (h : Heap) (a : Nat) :
    Except PyError (Heap × Nat) :=
  match lookupAddr h.dicts a with
  | none => .error .keyError
  | some d =>
  match d.amount with
  | none => .error .keyError
  | some v =>
  match toDecimal v with
  | .error _ => .error .invalidOperation
  | .ok q =>
  match processDate d.date with
  | .error err => .error err
  | .ok date2 =>
  match d.tags with
  | none =>
      let da := freshAddr h
      let d2 : HExpenseDict :=
        { d with amount := some (.num (roundHalfEven2 q)), date := date2 }
      .ok ({ h with dicts := h.dicts ++ [(da, d2)] }, da)
  | some ta =>
  match lookupAddr h.lists ta with
  | none => .error .keyError
  | some ts =>
      let ts2 := ts.map (fun t => t.trim.toLower)
      let la := freshAddr h
      let h1 : Heap := { h with lists := h.lists ++ [(la, ts2)] }
      let da := freshAddr h1
      let d2 : HExpenseDict :=
        { d with amount := some (.num (roundHalfEven2 q)), date := date2,
                 tags := some la }
      .ok ({ h1 with dicts := h1.dicts ++ [(da, d2)] }, da)

/-! ## Helper lemmas on insertion-ordered dicts -/

/-- Sum of the values of a dict. -/
def sumVals (m : List (String × ℚ)) : ℚ :=
  (m.map Prod.snd).sum

theorem sumVals_addTo (m : List (String × ℚ)) (k : String) (v : ℚ) :
    sumVals (addTo m k v) = sumVals m + v := by
  induction m with
  | nil => simp [addTo, sumVals]
  | cons p rest ih =>
      obtain ⟨k', v'⟩ := p
      by_cases h : k' = k
      · simp only [addTo, if_pos h, sumVals, List.map_cons, List.sum_cons]
        ring
      · simp only [addTo, if_neg h, sumVals, List.map_cons, List.sum_cons] at ih ⊢
        rw [ih]
        ring

theorem lookA_addTo_getD {α : Type} [AddZeroClass α]
    (m : List (String × α)) (k : String) (v : α) (c : String) :
    (lookA (addTo m k v) c).getD 0 =
      (lookA m c).getD 0 + (if k = c then v else 0) := by
  induction m with
  | nil =>
      by_cases h : k = c <;> simp [addTo, lookA, h, zero_add, add_zero]
  | cons p rest ih =>
      obtain ⟨k', v'⟩ := p
      by_cases h1 : k' = k
      · subst h1
        by_cases h2 : k' = c <;> simp [addTo, lookA, h2, add_zero]
      · by_cases h2 : k' = c
        · subst h2
          have hk : ¬ k = k' := fun hh => h1 hh.symm
          simp [addTo, h1, lookA, hk, add_zero]
        · simp [addTo, h1, lookA, h2, ih]

theorem lookA_addTo_isSome {α : Type} [AddZeroClass α]
    (m : List (String × α)) (k : String) (v : α) (c : String) :
    (lookA (addTo m k v) c).isSome = ((lookA m c).isSome || (k = c : Bool)) := by
  induction m with
  | nil => by_cases h : k = c <;> simp [addTo, lookA, h]
  | cons p rest ih =>
      obtain ⟨k', v'⟩ := p
      by_cases h1 : k' = k
      · subst h1
        by_cases h2 : k' = c <;> simp [addTo, lookA, h2]
      · by_cases h2 : k' = c
        · subst h2
          simp [addTo, h1, lookA]
        · simp [addTo, h1, lookA, h2, ih]

theorem lookA_map {α β : Type} (m : List (String × α)) (f : String → α → β)
    (c : String) :
    lookA (m.map (fun p => (p.1, f p.1 p.2))) c = (lookA m c).map (f c) := by
  induction m with
  | nil => simp [lookA]
  | cons p rest ih =>
      obtain ⟨k', v'⟩ := p
      by_cases h : k' = c
      · subst h; simp [lookA]
      · simp [lookA, h, ih]

theorem addTo_ne_nil {α : Type} [AddZeroClass α]
    (m : List (String × α)) (k : String) (v : α) : addTo m k v ≠ [] := by
  cases m with
  | nil => simp [addTo]
  | cons p rest =>
      obtain ⟨k', v'⟩ := p
      by_cases h : k' = k <;> simp [addTo, h]

/-! ## C6 lemmas: the summary fold -/

theorem foldl_summaryStep_total (es : List Expense) :
    ∀ s : MonthlySummary,
      (es.foldl summaryStep s).total = s.total + (es.map Expense.amount).sum := by
  induction es with
  | nil => intro s; simp
  | cons e rest ih =>
      intro s
      simp only [List.foldl_cons, List.map_cons, List.sum_cons, ih, summaryStep]
      ring

theorem foldl_summaryStep_categories (es : List Expense) :
    ∀ s : MonthlySummary,
      sumVals (es.foldl summaryStep s).categories =
        sumVals s.categories + (es.map Expense.amount).sum := by
  induction es with
  | nil => intro s; simp
  | cons e rest ih =>
      intro s
      simp only [List.foldl_cons, List.map_cons, List.sum_cons, ih, summaryStep,
        sumVals_addTo]
      ring

theorem foldl_summaryStep_daily (es : List Expense) :
    ∀ s : MonthlySummary,
      sumVals (es.foldl summaryStep s).daily_totals =
        sumVals s.daily_totals + (es.map Expense.amount).sum := by
  induction es with
  | nil => intro s; simp
  | cons e rest ih =>
      intro s
      simp only [List.foldl_cons, List.map_cons, List.sum_cons, ih, summaryStep,
        sumVals_addTo]
      ring

theorem foldl_summaryStep_count (es : List Expense) :
    ∀ s : MonthlySummary, (es.foldl summaryStep s).count = s.count := by
  induction es with
  | nil => intro s; rfl
  | cons e rest ih => intro s; simp only [List.foldl_cons, ih]; rfl

/-- C6: for every expense list, summarize(list).total equals the sum of
the amounts of the expenses in the list, equals the sum of the values of
the categories mapping, and equals the sum of the values of the
daily_totals mapping; count equals the length of the list; the empty list
yields total 0, count 0, and empty mappings. -/
theorem summary_total_invariants :
    (∀ es : List Expense,
      (generate_summary es).total = (es.map Expense.amount).sum ∧
      (generate_summary es).total = sumVals (generate_summary es).categories ∧
      (generate_summary es).total = sumVals (generate_summary es).daily_totals ∧
      (generate_summary es).count = es.length) ∧
    generate_summary [] =
      { total := 0, categories := [], tags := [], daily_totals := [],
        count := 0 } := by
  constructor
  · intro es
    unfold generate_summary
    refine ⟨?_, ?_, ?_, ?_⟩
    · rw [foldl_summaryStep_total]; simp
    · rw [foldl_summaryStep_total, foldl_summaryStep_categories]
      simp [sumVals]
    · rw [foldl_summaryStep_total, foldl_summaryStep_daily]
      simp [sumVals]
    · rw [foldl_summaryStep_count]
  · rfl

/-- Witness for C6 at a concrete two-element list. -/
theorem summary_total_invariants_witness :
    (generate_summary
        [⟨5/2, "food", ["t"], ⟨2025, 1, 2⟩⟩, ⟨3/2, "gas", [], ⟨2025, 1, 3⟩⟩]).total =
      (([⟨5/2, "food", ["t"], ⟨2025, 1, 2⟩⟩,
         ⟨3/2, "gas", [], ⟨2025, 1, 3⟩⟩] : List Expense).map Expense.amount).sum ∧
    (generate_summary
        [⟨5/2, "food", ["t"], ⟨2025, 1, 2⟩⟩, ⟨3/2, "gas", [], ⟨2025, 1, 3⟩⟩]).count = 2 :=
  ⟨(summary_total_invariants.1 _).1, (summary_total_invariants.1 _).2.2.2⟩

/-! ## C2: amount normalization rounding -/

/-- Concrete raw record with the boundary amount 2.005. -/
def rawAmount2005 : RawExpense :=
  { amount := some (.num (2005 / 1000)), category := some "Food",
    date := some (.str "2025-04-15"), description := some "snack",
    tags := none }

/-- C2 counterexample: the normalizer maps 2.005 to 2.00, while rounding
half-up to 2 places (the rule the claim states) yields 2.01; so the
normalized amount is not x rounded half-up. -/
theorem normalize_2005_rounds_half_even_cex :
    process_expense_data rawAmount2005 =
      .ok { rawAmount2005 with
              amount := some (.num 2), date := some (.dt ⟨2025, 4, 15⟩) } ∧
    roundHalfUpSpec2 (2005 / 1000) = 201 / 100 ∧
    (2 : ℚ) ≠ 201 / 100 := by
  have h1 : ((2005 : ℚ) / 1000) * 100 = 401 / 2 := by norm_num
  have h2 : (⌊(401 : ℚ) / 2⌋ : ℤ) = 200 := by norm_num
  have hre : roundHalfEven2 (2005 / 1000) = 2 := by
    simp only [roundHalfEven2, h1, h2]
    norm_num
  have hd : parseISODate "2025-04-15" = some ⟨2025, 4, 15⟩ := rfl
  refine ⟨?_, ?_, by norm_num⟩
  · simp only [rawAmount2005, process_expense_data, toDecimal, processDate, hd, hre]
  · simp only [roundHalfUpSpec2, h1]
    rw [if_pos (by norm_num : (0 : ℚ) ≤ 401 / 2)]
    rw [show (401 : ℚ) / 2 + 1 / 2 = 201 by norm_num]
    norm_num

/-- C2 (amended): for every decimal input q, the normalized amount
round(Decimal(q), 2) is an integer count of cents c (exactly 2 fractional
digits), c is within half a cent of 100 q, and an exact half-cent tie is
resolved to an even c (ROUND_HALF_EVEN), not away from zero. -/
theorem normalize_amount_two_digits_half_even (q : ℚ) :
    ∃ c : ℤ, roundHalfEven2 q = (c : ℚ) / 100 ∧
      |(c : ℚ) - q * 100| ≤ 1 / 2 ∧
      (|(c : ℚ) - q * 100| = 1 / 2 → c % 2 = 0) := by
  have hr0 : (0 : ℚ) ≤ q * 100 - ⌊q * 100⌋ := by
    have := Int.floor_le (q * 100); linarith
  have hr1 : q * 100 - ⌊q * 100⌋ < 1 := by
    have := Int.lt_floor_add_one (q * 100); push_cast at this; linarith
  simp only [roundHalfEven2]
  split_ifs with h1 h2 h3
  · refine ⟨⌊q * 100⌋, rfl, ?_, ?_⟩
    · rw [abs_le]; constructor <;> linarith
    · intro habs
      rcases (abs_eq (by norm_num : (0 : ℚ) ≤ 1 / 2)).mp habs with h | h <;>
        [linarith; linarith]
  · refine ⟨⌊q * 100⌋ + 1, rfl, ?_, ?_⟩
    · rw [abs_le]; push_cast; constructor <;> linarith
    · intro habs
      rcases (abs_eq (by norm_num : (0 : ℚ) ≤ 1 / 2)).mp habs with h | h <;>
        push_cast at h <;> linarith
  · refine ⟨⌊q * 100⌋, rfl, ?_, fun _ => h3⟩
    have heq : q * 100 - ⌊q * 100⌋ = 1 / 2 :=
      le_antisymm (not_lt.mp h2) (not_lt.mp h1)
    rw [abs_le]; constructor <;> linarith
  · refine ⟨⌊q * 100⌋ + 1, rfl, ?_, fun _ => by omega⟩
    have heq : q * 100 - ⌊q * 100⌋ = 1 / 2 :=
      le_antisymm (not_lt.mp h2) (not_lt.mp h1)
    rw [abs_le]; push_cast; constructor <;> linarith

/-- Witness for C2 at the input 2.005. -/
theorem normalize_amount_two_digits_half_even_witness :
    ∃ c : ℤ, roundHalfEven2 (2005 / 1000) = (c : ℚ) / 100 ∧
      |(c : ℚ) - (2005 / 1000) * 100| ≤ 1 / 2 ∧
      (|(c : ℚ) - (2005 / 1000) * 100| = 1 / 2 → c % 2 = 0) :=
  normalize_amount_two_digits_half_even (2005 / 1000)

/-! ## Shared service lemmas -/

/-- A successful validation guarantees a present, parseable amount. -/
theorem validate_ok_amount (e : RawExpense)
    (hv : validate_expense_data e = .ok ()) :
    ∃ v q, e.amount = some v ∧ toDecimal v = .ok q := by
  unfold validate_expense_data at hv
  cases ha : e.amount with
  | none => simp [ha] at hv
  | some v =>
    cases hc : e.category with
    | none => simp [ha, hc] at hv
    | some c =>
      cases hd : e.date with
      | none => simp [ha, hc, hd] at hv
      | some dv =>
        cases hde : e.description with
        | none => simp [ha, hc, hd, hde] at hv
        | some ds =>
          cases ht : toDecimal v with
          | error u2 => simp [ha, hc, hd, hde, ht] at hv
          | ok q => exact ⟨v, q, rfl, ht⟩

/-- After a successful validation, create_expense reduces to the budget
check followed by normalization and the write. -/
theorem create_expense_after_check (repo : Repo) (u : String) (e : RawExpense)
    (now : DateTime) (c : String) (v : Value) (q : ℚ)
    (hv : validate_expense_data e = .ok ())
    (hc : e.category = some c) (ha : e.amount = some v)
    (hq : toDecimal v = .ok q) :
    create_expense repo u e now =
      match check_budget_limits repo u c q now with
      | .error err => (.error err, [])
      | .ok () =>
          match process_expense_data e with
          | .error err => (.error err, [])
          | .ok processed => (.ok processed, [processed]) := by
  simp only [create_expense, hv, hc, ha, hq]

/-- The budget check reads the repository only at the category key and at
the period start firstOfMonth now. -/
theorem check_budget_limits_congr (repo repo2 : Repo) (u c : String)
    (amt : ℚ) (now : DateTime)
    (h1 : repo.getCategory u c = repo2.getCategory u c)
    (h2 : repo.getCategoryTotal u c (firstOfMonth now) =
      repo2.getCategoryTotal u c (firstOfMonth now)) :
    check_budget_limits repo u c amt now =
      check_budget_limits repo2 u c amt now := by
  simp only [check_budget_limits, h1, h2]

/-! ## C1: which month the budget check reads -/

/-- Repository for the C1 scenario: category Food has limit 200; the
May 2025 month total is 150, any other period total is 0. -/
def repoC1 : Repo :=
  { getCategory := fun _ c =>
      if c = "Food" then some { name := "Food", budget_limit := some 200 }
      else none,
    getCategoryTotal := fun _ _ d => if d = ⟨2025, 5, 1⟩ then 150 else 0 }

/-- A valid raw expense dated April 15, 2025, amount 60. -/
def rawAprilExpense : RawExpense :=
  { amount := some (.num 60), category := some "Food",
    date := some (.str "2025-04-15"), description := some "groceries",
    tags := none }

/-- C1 counterexample: the expense is dated April 2025, and the April
total (0) plus the amount fits the 200 limit, yet create_expense invoked
with wall-clock time May 20, 2025 rejects it: the compared total is the
one of the month of the call, not of the validated expense date. -/
theorem budget_check_ignores_expense_month_cex :
    create_expense repoC1 "u" rawAprilExpense ⟨2025, 5, 20⟩ =
      (.error (.budgetLimitExceeded
        "This expense would exceed the budget limit for category Food"), []) ∧
    repoC1.getCategoryTotal "u" "Food" ⟨2025, 4, 1⟩ + 60 ≤ 200 := by
  have hcat : repoC1.getCategory "u" "Food" =
      some { name := "Food", budget_limit := some 200 } := rfl
  have htot : repoC1.getCategoryTotal "u" "Food" (firstOfMonth ⟨2025, 5, 20⟩) =
      150 := rfl
  have hchk : check_budget_limits repoC1 "u" "Food" 60 ⟨2025, 5, 20⟩ =
      .error (.budgetLimitExceeded
        "This expense would exceed the budget limit for category Food") := by
    simp only [check_budget_limits, hcat, htot]
    norm_num [limitTruthy]
    rfl
  constructor
  · rw [create_expense_after_check repoC1 "u" rawAprilExpense ⟨2025, 5, 20⟩
      "Food" (.num 60) 60 rfl rfl rfl rfl]
    rw [hchk]
  · norm_num [repoC1]

/-- C1 (amended): the budget check inside create_expense compares against
the repository total whose period start is the first day of the month of
the wall-clock call time now: two repositories that agree on categories
and on the totals at firstOfMonth now give identical outcomes, whatever
totals they report for the month of the expense date or any other period. -/
theorem create_expense_depends_on_call_month_total (repo repo2 : Repo)
    (u : String) (e : RawExpense) (now : DateTime)
    (h1 : ∀ c, repo.getCategory u c = repo2.getCategory u c)
    (h2 : ∀ c, repo.getCategoryTotal u c (firstOfMonth now) =
      repo2.getCategoryTotal u c (firstOfMonth now)) :
    create_expense repo u e now = create_expense repo2 u e now := by
  have hc : ∀ c amt, check_budget_limits repo u c amt now =
      check_budget_limits repo2 u c amt now :=
    fun c amt => check_budget_limits_congr repo repo2 u c amt now (h1 c) (h2 c)
  simp only [create_expense, hc]

/-- Same as repoC1 except that the April 2025 total is 999 instead of 0. -/
def repoC1AprilDiffers : Repo :=
  { getCategory := fun _ c =>
      if c = "Food" then some { name := "Food", budget_limit := some 200 }
      else none,
    getCategoryTotal := fun _ _ d =>
      if d = ⟨2025, 4, 1⟩ then 999 else if d = ⟨2025, 5, 1⟩ then 150 else 0 }

/-- Witness for C1: changing only the April total changes nothing about a
May-time call. -/
theorem create_expense_depends_on_call_month_total_witness :
    create_expense repoC1 "u" rawAprilExpense ⟨2025, 5, 20⟩ =
      create_expense repoC1AprilDiffers "u" rawAprilExpense ⟨2025, 5, 20⟩ :=
  create_expense_depends_on_call_month_total repoC1 repoC1AprilDiffers "u"
    rawAprilExpense ⟨2025, 5, 20⟩ (fun _ => rfl) (fun _ => rfl)

/-! ## C3: budget limit comparison semantics -/

/-- Repository whose only category Food carries budget_limit 0. -/
def repoZeroLimit : Repo :=
  { getCategory := fun _ _ => some { name := "Food", budget_limit := some 0 },
    getCategoryTotal := fun _ _ _ => 0 }

/-- C3 counterexample: with budget_limit = 0 present and a positive
candidate amount 5 the check succeeds, because the truthiness test
if category.budget_limit skips the whole enforcement block for
Decimal(0); the claim says this case must fail. -/
theorem budget_limit_zero_skipped_cex :
    check_budget_limits repoZeroLimit "u" "Food" 5 ⟨2025, 5, 20⟩ = .ok () := by
  rfl

/-- C3 (amended): when the category exists, an absent budget_limit or a
budget_limit equal to 0 makes the check succeed unconditionally; for a
present nonzero budget_limit the check succeeds iff
current_total + candidate_amount <= budget_limit (with current_total the
call-month repository total) and otherwise fails with BudgetLimitExceeded. -/
theorem budget_check_limit_semantics (repo : Repo) (u c : String) (amt : ℚ)
    (now : DateTime) (cat : Category)
    (hc : repo.getCategory u c = some cat) :
    ((cat.budget_limit = none ∨ cat.budget_limit = some 0) →
      check_budget_limits repo u c amt now = .ok ()) ∧
    (∀ L : ℚ, cat.budget_limit = some L → L ≠ 0 →
      ((check_budget_limits repo u c amt now = .ok () ↔
          repo.getCategoryTotal u c (firstOfMonth now) + amt ≤ L) ∧
        (L < repo.getCategoryTotal u c (firstOfMonth now) + amt →
          check_budget_limits repo u c amt now =
            .error (.budgetLimitExceeded
              ("This expense would exceed the budget limit for category " ++
                cat.name))))) := by
  constructor
  · rintro (h | h) <;> simp [check_budget_limits, hc, h, limitTruthy]
  · intro L hL hL0
    have hshape : check_budget_limits repo u c amt now =
        if repo.getCategoryTotal u c (firstOfMonth now) + amt > L then
          .error (.budgetLimitExceeded
            ("This expense would exceed the budget limit for category " ++
              cat.name))
        else .ok () := by
      simp [check_budget_limits, hc, hL, limitTruthy, hL0]
    rw [hshape]
    constructor
    · by_cases hgt : repo.getCategoryTotal u c (firstOfMonth now) + amt > L
      · rw [if_pos hgt]
        constructor
        · intro h; simp at h
        · intro h; linarith
      · rw [if_neg hgt]
        exact ⟨fun _ => not_lt.mp hgt, fun _ => rfl⟩
    · intro hlt
      rw [if_pos (by linarith)]

/-- Repository for the spec budget scenario: Food has limit 200 and the
current month total is 150. -/
def repoBudget200 : Repo :=
  { getCategory := fun _ _ => some { name := "Food", budget_limit := some 200 },
    getCategoryTotal := fun _ _ _ => 150 }

/-- Witness for C3: candidate 40 passes (would total 190), candidate 60
fails (would total 210). -/
theorem budget_check_limit_semantics_witness :
    check_budget_limits repoBudget200 "u" "Food" 40 ⟨2025, 5, 20⟩ = .ok () ∧
    check_budget_limits repoBudget200 "u" "Food" 60 ⟨2025, 5, 20⟩ =
      .error (.budgetLimitExceeded
        "This expense would exceed the budget limit for category Food") := by
  constructor
  · exact ((budget_check_limit_semantics repoBudget200 "u" "Food" 40 ⟨2025, 5, 20⟩
      { name := "Food", budget_limit := some 200 } rfl).2 200 rfl
      (by norm_num)).1.mpr (by norm_num [repoBudget200])
  · exact ((budget_check_limit_semantics repoBudget200 "u" "Food" 60 ⟨2025, 5, 20⟩
      { name := "Food", budget_limit := some 200 } rfl).2 200 rfl
      (by norm_num)).2 (by norm_num [repoBudget200])

/-! ## C8: nonexistent category -/

/-- Repository with no categories at all. -/
def repoNoCategories : Repo :=
  { getCategory := fun _ _ => none, getCategoryTotal := fun _ _ _ => 0 }

/-- Raw record whose category ghost does not exist and whose amount is
invalid. -/
def rawBadAmountGhostCategory : RawExpense :=
  { amount := some (.num (-5)), category := some "ghost",
    date := some (.dt ⟨2025, 4, 15⟩), description := some "x", tags := none }

/-- C8 counterexample: a raw record whose category does not exist but
whose amount is invalid fails with the validation error, not with
CategoryNotFound, because validation runs before the category lookup (no
write happens either way, as the empty log shows). -/
theorem create_invalid_record_not_category_error_cex :
    create_expense repoNoCategories "u" rawBadAmountGhostCategory
        ⟨2025, 5, 20⟩ =
      (.error (.invalidExpense "Amount must be greater than 0"), []) := by
  rfl

/-- C8 (amended): for every raw record that passes validation and whose
category does not exist for the user, create_expense fails with
CategoryNotFound and the write log is empty: repository.create is never
called. -/
theorem create_expense_missing_category_fails (repo : Repo) (u : String)
    (e : RawExpense) (now : DateTime) (c : String)
    (hv : validate_expense_data e = .ok ()) (hc : e.category = some c)
    (habs : repo.getCategory u c = none) :
    create_expense repo u e now =
      (.error (.categoryNotFound ("Category " ++ c ++ " not found")), []) := by
  obtain ⟨v, q, ha, hq⟩ := validate_ok_amount e hv
  rw [create_expense_after_check repo u e now c v q hv hc ha hq]
  simp [check_budget_limits, habs]

/-- Valid raw record referencing the nonexistent category ghost. -/
def rawGhostCategory : RawExpense :=
  { amount := some (.num 60), category := some "ghost",
    date := some (.dt ⟨2025, 4, 15⟩), description := some "x", tags := none }

/-- Witness for C8 on a concrete valid record and the empty repository. -/
theorem create_expense_missing_category_fails_witness :
    create_expense repoNoCategories "u" rawGhostCategory ⟨2025, 5, 20⟩ =
      (.error (.categoryNotFound "Category ghost not found"), []) :=
  create_expense_missing_category_fails repoNoCategories "u" rawGhostCategory
    ⟨2025, 5, 20⟩ "ghost" rfl rfl rfl

/-! ## C5: amount validation cases -/

/-- The rational 0.01 as a normalized fraction. -/
def oneCent : ℚ := ⟨1, 100, by decide, by decide⟩

/-- Otherwise-valid raw record with amount 0. -/
def rawAmountZero : RawExpense :=
  { amount := some (.num 0), category := some "Food",
    date := some (.dt ⟨2025, 4, 15⟩), description := some "x", tags := none }

/-- C5: validate rejects amounts 0 and -5 with the InvalidAmount-kind
business error, accepts amount 0.01, but on the unparseable string abc it
raises decimal.InvalidOperation, which escapes the
except (ValueError, TypeError) handler uncaught instead of becoming the
InvalidAmount-kind error Invalid amount format. -/
theorem validate_amount_cases :
    validate_expense_data rawAmountZero =
      .error (.invalidExpense "Amount must be greater than 0") ∧
    validate_expense_data { rawAmountZero with amount := some (.num (-5)) } =
      .error (.invalidExpense "Amount must be greater than 0") ∧
    validate_expense_data { rawAmountZero with amount := some (.str "abc") } =
      .error .invalidOperation ∧
    oneCent = 1 / 100 ∧
    validate_expense_data { rawAmountZero with amount := some (.num oneCent) } =
      .ok () := by
  refine ⟨rfl, rfl, rfl, ?_, rfl⟩
  rw [show (oneCent : ℚ) = (oneCent.num : ℚ) / (oneCent.den : ℚ) from
    (Rat.num_div_den oneCent).symm]
  norm_num [oneCent]

/-! ## C4 and C9: analyzer outcome shape -/

/-- analyze succeeds exactly when the input is empty (early return) or the
period is nonzero (no division by zero). -/
theorem analyze_ok_iff (es : List AExpense) (pd : ℤ) :
    (∃ a, analyze_spending_pattern es pd = .ok a) ↔ (es = [] ∨ pd ≠ 0) := by
  cases es with
  | nil => simp [analyze_spending_pattern]
  | cons x xs =>
    by_cases h0 : pd = 0
    · subst h0
      simp [analyze_spending_pattern]
    · simp [analyze_spending_pattern, h0]

/-- C4 counterexample: analyze([], 0) succeeds, returning the
pre-initialized zero analysis; it fails with no InvalidPeriod kind (none
exists in the code). -/
theorem analyze_no_invalid_period_cex :
    analyze_spending_pattern [] 0 = .ok emptyAnalysis := by
  rfl

/-- The first analyzer loop accumulates the sum of the amounts. -/
theorem foldl_stepA_total (es : List AExpense) :
    ∀ s : LoopState,
      (es.foldl stepA s).total = s.total + (es.map AExpense.amount).sum := by
  induction es with
  | nil => intro s; simp
  | cons e rest ih =>
      intro s
      simp only [List.foldl_cons, List.map_cons, List.sum_cons, ih, stepA]
      ring

/-- C4 (amended): analyze performs no period validation and no
InvalidPeriod kind exists.  For period_days <= 0: an empty list succeeds
with the zero analysis; a non-empty list with period_days = 0 raises the
decimal division exception — DivisionByZero when the accumulated
total_spent is nonzero, InvalidOperation (DivisionUndefined) when it is 0
(the 0/0 case, reachable since amounts are not validated here); a negative
period_days succeeds. -/
theorem analyze_period_behavior (es : List AExpense) (pd : ℤ) (_hpd : pd ≤ 0) :
    (es = [] → analyze_spending_pattern es pd = .ok emptyAnalysis) ∧
    (es ≠ [] → pd = 0 → (es.map AExpense.amount).sum ≠ 0 →
      analyze_spending_pattern es pd = .error .divisionByZero) ∧
    (es ≠ [] → pd = 0 → (es.map AExpense.amount).sum = 0 →
      analyze_spending_pattern es pd = .error .invalidOperation) ∧
    (pd < 0 → ∃ a, analyze_spending_pattern es pd = .ok a) := by
  refine ⟨?_, ?_, ?_, ?_⟩
  · intro h; subst h; rfl
  · intro hne h0 hsum
    subst h0
    cases es with
    | nil => exact absurd rfl hne
    | cons x xs =>
        have ht : (xs.foldl stepA (stepA ⟨0, [], [], none⟩ x)).total =
            ((x :: xs).map AExpense.amount).sum := by
          rw [foldl_stepA_total]
          simp [stepA]
        simp only [List.map_cons, List.sum_cons] at hsum
        simp [analyze_spending_pattern, ht, hsum]
  · intro hne h0 hsum
    subst h0
    cases es with
    | nil => exact absurd rfl hne
    | cons x xs =>
        have ht : (xs.foldl stepA (stepA ⟨0, [], [], none⟩ x)).total =
            ((x :: xs).map AExpense.amount).sum := by
          rw [foldl_stepA_total]
          simp [stepA]
        simp only [List.map_cons, List.sum_cons] at hsum
        simp [analyze_spending_pattern, ht, hsum]
  · intro hneg
    exact (analyze_ok_iff es pd).mpr (Or.inr (by omega))

/-- Witness for C4: empty list with period 0; singleton lists with
period 0, one with nonzero total (amount 10) and one with total 0
(amount 0); and period -7. -/
theorem analyze_period_behavior_witness :
    analyze_spending_pattern [] 0 = .ok emptyAnalysis ∧
    analyze_spending_pattern [⟨10, "Food", ⟨2025, 4, 1⟩, "a"⟩] 0 =
      .error .divisionByZero ∧
    analyze_spending_pattern [⟨0, "Food", ⟨2025, 4, 1⟩, "a"⟩] 0 =
      .error .invalidOperation ∧
    ∃ a, analyze_spending_pattern [⟨10, "Food", ⟨2025, 4, 1⟩, "a"⟩] (-7) =
      .ok a :=
  ⟨(analyze_period_behavior [] 0 le_rfl).1 rfl,
    (analyze_period_behavior [⟨10, "Food", ⟨2025, 4, 1⟩, "a"⟩] 0 le_rfl).2.1
      (by simp) rfl (by norm_num),
    (analyze_period_behavior [⟨0, "Food", ⟨2025, 4, 1⟩, "a"⟩] 0 le_rfl).2.2.1
      (by simp) rfl (by norm_num),
    (analyze_period_behavior [⟨10, "Food", ⟨2025, 4, 1⟩, "a"⟩] (-7)
      (by norm_num)).2.2.2 (by norm_num)⟩

/-- One analyzer step always leaves a present running maximum. -/
theorem stepA_highest_isSome (s : LoopState) (e : AExpense) :
    ((stepA s e).highest).isSome := by
  cases hs : s.highest with
  | none => simp [stepA, hs]
  | some h =>
    simp only [stepA, hs]
    split <;> rfl

theorem foldl_stepA_highest (es : List AExpense) :
    ∀ s : LoopState, s.highest.isSome → ((es.foldl stepA s).highest).isSome := by
  induction es with
  | nil => intro s hs; exact hs
  | cons e rest ih => intro s _; exact ih (stepA s e) (stepA_highest_isSome s e)

theorem foldl_stepA_counts_ne (es : List AExpense) :
    ∀ s : LoopState, s.counts ≠ [] → (es.foldl stepA s).counts ≠ [] := by
  induction es with
  | nil => intro s hs; exact hs
  | cons e rest ih => intro s _; exact ih (stepA s e) (addTo_ne_nil s.counts e.category 1)

theorem maxBySnd_isSome (m : List (String × Nat)) (hm : m ≠ []) :
    (maxBySnd m).isSome := by
  cases m with
  | nil => exact absurd rfl hm
  | cons x xs => rfl

/-- Reduction of analyze on a non-empty list with a nonzero period. -/
theorem analyze_cons (x : AExpense) (xs : List AExpense) (pd : ℤ)
    (h0 : pd ≠ 0) :
    ∃ st : LoopState, st = (x :: xs).foldl stepA ⟨0, [], [], none⟩ ∧
      analyze_spending_pattern (x :: xs) pd = .ok
        { total_spent := st.total,
          average_daily := st.total / (pd : ℚ),
          highest_expense := st.highest,
          most_frequent_category := (maxBySnd st.counts).map Prod.fst,
          category_distribution := st.dist,
          unusual_expenses := ((x :: xs).filter (fun e =>
              decide ((lookA (st.dist.map (fun p =>
                (p.1, p.2 / (((lookA st.counts p.1).getD 0 : Nat) : ℚ))))
                e.category).getD 0 * 2 < e.amount))).map
            (fun e => (⟨e.amount, e.category, e.date, e.description⟩ :
              UnusualEntry)) } := by
  refine ⟨_, rfl, ?_⟩
  simp [analyze_spending_pattern, h0]

/-- C9: for every non-empty expense list and period_days >= 1, analyze
succeeds and both highest_expense and most_frequent_category are present
(the running maximum is set on the first iteration and the category count
dict is non-empty). -/
theorem analyze_nonempty_fields_present (es : List AExpense) (pd : ℤ)
    (hne : es ≠ []) (hpd : 1 ≤ pd) :
    ∃ a, analyze_spending_pattern es pd = .ok a ∧
      a.highest_expense.isSome ∧ a.most_frequent_category.isSome := by
  cases es with
  | nil => exact absurd rfl hne
  | cons x xs =>
    obtain ⟨st, hst, heq⟩ := analyze_cons x xs pd (by omega)
    refine ⟨_, heq, ?_, ?_⟩
    · show st.highest.isSome
      rw [hst]
      exact foldl_stepA_highest xs _ (stepA_highest_isSome ⟨0, [], [], none⟩ x)
    · show ((maxBySnd st.counts).map Prod.fst).isSome
      have hcne : st.counts ≠ [] := by
        rw [hst]
        exact foldl_stepA_counts_ne xs _ (addTo_ne_nil [] x.category 1)
      have := maxBySnd_isSome st.counts hcne
      cases hmx : maxBySnd st.counts with
      | none => rw [hmx] at this; exact absurd this (by simp)
      | some p => simp [hmx]

/-- Witness for C9 on a concrete three-expense list with period 30. -/
theorem analyze_nonempty_fields_present_witness :
    ∃ a, analyze_spending_pattern
        [⟨10, "Food", ⟨2025, 4, 1⟩, "a"⟩, ⟨10, "Food", ⟨2025, 4, 2⟩, "b"⟩,
          ⟨40, "Food", ⟨2025, 4, 3⟩, "c"⟩] 30 = .ok a ∧
      a.highest_expense.isSome ∧ a.most_frequent_category.isSome :=
  analyze_nonempty_fields_present _ 30 (by simp) (by norm_num)

/-! ## C7: unusual expense characterization -/

/-- Total amount of the expenses of category c within the analyzed set
(the claim quantity: category total). -/
def catTotal (es : List AExpense) (c : String) : ℚ :=
  ((es.filter (fun e => decide (e.category = c))).map AExpense.amount).sum

/-- Number of expenses of category c within the analyzed set. -/
def catCount (es : List AExpense) (c : String) : Nat :=
  (es.filter (fun e => decide (e.category = c))).length

/-- The average amount of a category within the analyzed set. -/
def catAvg (es : List AExpense) (c : String) : ℚ :=
  catTotal es c / (catCount es c : ℚ)

theorem catTotal_cons (e : AExpense) (rest : List AExpense) (c : String) :
    catTotal (e :: rest) c =
      (if e.category = c then e.amount else 0) + catTotal rest c := by
  simp only [catTotal, List.filter_cons]
  by_cases h : e.category = c
  · simp [h]
  · simp [h]

theorem catCount_cons (e : AExpense) (rest : List AExpense) (c : String) :
    catCount (e :: rest) c =
      (if e.category = c then 1 else 0) + catCount rest c := by
  simp only [catCount, List.filter_cons]
  by_cases h : e.category = c
  · simp [h, Nat.add_comm]
  · simp [h]

theorem foldl_stepA_dist_getD (es : List AExpense) :
    ∀ (s : LoopState) (c : String),
      (lookA (es.foldl stepA s).dist c).getD 0 =
        (lookA s.dist c).getD 0 + catTotal es c := by
  induction es with
  | nil => intro s c; simp [catTotal]
  | cons e rest ih =>
      intro s c
      rw [List.foldl_cons, ih]
      have hstep : (stepA s e).dist = addTo s.dist e.category e.amount := rfl
      rw [hstep, lookA_addTo_getD, catTotal_cons]
      ring

theorem foldl_stepA_counts_getD (es : List AExpense) :
    ∀ (s : LoopState) (c : String),
      (lookA (es.foldl stepA s).counts c).getD 0 =
        (lookA s.counts c).getD 0 + catCount es c := by
  induction es with
  | nil => intro s c; simp [catCount]
  | cons e rest ih =>
      intro s c
      rw [List.foldl_cons, ih]
      have hstep : (stepA s e).counts = addTo s.counts e.category 1 := rfl
      rw [hstep, lookA_addTo_getD, catCount_cons]
      omega

theorem foldl_stepA_dist_isSome (es : List AExpense) :
    ∀ (s : LoopState) (c : String), (lookA s.dist c).isSome = true →
      (lookA (es.foldl stepA s).dist c).isSome = true := by
  induction es with
  | nil => intro s c h; exact h
  | cons x rest ih =>
      intro s c h
      refine ih _ c ?_
      show (lookA (addTo s.dist x.category x.amount) c).isSome = true
      rw [lookA_addTo_isSome]
      simp [h]

theorem foldl_stepA_dist_mem (es : List AExpense) :
    ∀ (s : LoopState) (e : AExpense), e ∈ es →
      (lookA (es.foldl stepA s).dist e.category).isSome = true := by
  induction es with
  | nil => intro s e he; cases he
  | cons x rest ih =>
      intro s e he
      rcases List.mem_cons.mp he with rfl | hmem
      · refine foldl_stepA_dist_isSome rest _ e.category ?_
        show (lookA (addTo s.dist e.category e.amount) e.category).isSome = true
        rw [lookA_addTo_isSome]
        simp
      · exact ih _ e hmem

theorem Option_eq_some_getD {α : Type} (o : Option α) (d : α)
    (ho : o.isSome = true) : o = some (o.getD d) := by
  cases o with
  | none => cases ho
  | some v => rfl

/-- The spec scenario list: three Food expenses of 10, 10, 40. -/
def expensesTenTenForty : List AExpense :=
  [⟨10, "Food", ⟨2025, 4, 1⟩, "a"⟩, ⟨10, "Food", ⟨2025, 4, 2⟩, "b"⟩,
    ⟨40, "Food", ⟨2025, 4, 3⟩, "c"⟩]

/-- The same with 41 in place of 40. -/
def expensesTenTenFortyOne : List AExpense :=
  [⟨10, "Food", ⟨2025, 4, 1⟩, "a"⟩, ⟨10, "Food", ⟨2025, 4, 2⟩, "b"⟩,
    ⟨41, "Food", ⟨2025, 4, 3⟩, "c"⟩]

/-- C7: an expense is flagged in unusual_expenses iff its amount is
strictly greater than twice the average amount of its own category within
the analyzed set; in the 10/10/40 Food scenario (average 20) nothing is
flagged, and with 41 in place of 40 the 41 expense is flagged. -/
theorem unusual_expenses_characterization :
    (∀ (es : List AExpense) (pd : ℤ) (a : Analysis),
      analyze_spending_pattern es pd = .ok a →
      a.unusual_expenses = (es.filter (fun e =>
          decide (catAvg es e.category * 2 < e.amount))).map
        (fun e => (⟨e.amount, e.category, e.date, e.description⟩ :
          UnusualEntry))) ∧
    (∃ a, analyze_spending_pattern expensesTenTenForty 30 = .ok a ∧
      a.unusual_expenses = []) ∧
    (∃ a, analyze_spending_pattern expensesTenTenFortyOne 30 = .ok a ∧
      a.unusual_expenses =
        [(⟨41, "Food", ⟨2025, 4, 3⟩, "c"⟩ : UnusualEntry)]) := by
  have hmain : ∀ (es : List AExpense) (pd : ℤ) (a : Analysis),
      analyze_spending_pattern es pd = .ok a →
      a.unusual_expenses = (es.filter (fun e =>
          decide (catAvg es e.category * 2 < e.amount))).map
        (fun e => (⟨e.amount, e.category, e.date, e.description⟩ :
          UnusualEntry)) := by
    intro es pd a ha
    cases es with
    | nil =>
        have h2 : analyze_spending_pattern [] pd = .ok emptyAnalysis := rfl
        rw [h2] at ha
        simp only [Except.ok.injEq] at ha
        subst ha
        rfl
    | cons x xs =>
        have h0 : pd ≠ 0 := by
          intro h0
          subst h0
          simp [analyze_spending_pattern] at ha
        obtain ⟨st, hst, heq⟩ := analyze_cons x xs pd h0
        rw [heq] at ha
        simp only [Except.ok.injEq] at ha
        subst ha
        show ((x :: xs).filter _).map _ = _
        congr 1
        refine List.filter_congr ?_
        intro e he
        rw [decide_eq_decide]
        have hdist0 : (lookA st.dist e.category).getD 0 =
            catTotal (x :: xs) e.category := by
          rw [hst, foldl_stepA_dist_getD]
          simp [lookA]
        have hdistS : (lookA st.dist e.category).isSome = true := by
          rw [hst]; exact foldl_stepA_dist_mem _ _ e he
        have hdist : lookA st.dist e.category =
            some (catTotal (x :: xs) e.category) := by
          rw [Option_eq_some_getD (lookA st.dist e.category) 0 hdistS, hdist0]
        have hcnt : (lookA st.counts e.category).getD 0 =
            catCount (x :: xs) e.category := by
          rw [hst, foldl_stepA_counts_getD]
          simp [lookA]
        have hlm := lookA_map st.dist
          (fun k t => t / (((lookA st.counts k).getD 0 : Nat) : ℚ)) e.category
        simp only [] at hlm
        rw [hlm, hdist]
        simp only [Option.map_some', Option.getD_some, hcnt]
        rw [catAvg]
  refine ⟨hmain, ?_, ?_⟩
  · obtain ⟨a, ha⟩ :=
      (analyze_ok_iff expensesTenTenForty 30).mpr (Or.inr (by norm_num))
    refine ⟨a, ha, ?_⟩
    rw [hmain expensesTenTenForty 30 a ha]
    norm_num [expensesTenTenForty, List.filter_cons, catAvg, catTotal, catCount]
  · obtain ⟨a, ha⟩ :=
      (analyze_ok_iff expensesTenTenFortyOne 30).mpr (Or.inr (by norm_num))
    refine ⟨a, ha, ?_⟩
    rw [hmain expensesTenTenFortyOne 30 a ha]
    norm_num [expensesTenTenFortyOne, List.filter_cons, catAvg, catTotal,
      catCount]

/-- Witness for C7, instantiating the characterization on the empty
analysis. -/
theorem unusual_expenses_characterization_witness :
    emptyAnalysis.unusual_expenses = (([] : List AExpense).filter (fun e =>
        decide (catAvg [] e.category * 2 < e.amount))).map
      (fun e => (⟨e.amount, e.category, e.date, e.description⟩ :
        UnusualEntry)) :=
  unusual_expenses_characterization.1 [] 1 emptyAnalysis rfl

/-! ## C10: the normalizer does not mutate its input -/

theorem lookupAddr_append {α : Type} (l m : List (Nat × α)) (k : Nat) (v : α)
    (h : lookupAddr l k = some v) : lookupAddr (l ++ m) k = some v := by
  induction l with
  | nil => cases h
  | cons p rest ih =>
      obtain ⟨k', v'⟩ := p
      by_cases hk : k' = k
      · simpa [lookupAddr, hk] using h
      · simp only [lookupAddr, hk, List.cons_append, if_false] at h ⊢
        exact ih h

theorem base_le_foldl_max (ks : List Nat) : ∀ a : Nat, a ≤ ks.foldl max a := by
  induction ks with
  | nil => intro a; exact le_rfl
  | cons x rest ih => intro a; exact le_trans (le_max_left a x) (ih (max a x))

theorem le_foldl_max (ks : List Nat) :
    ∀ a k : Nat, k ∈ ks → k ≤ ks.foldl max a := by
  induction ks with
  | nil => intro a k hk; cases hk
  | cons x rest ih =>
      intro a k hk
      rcases List.mem_cons.mp hk with rfl | hmem
      · exact le_trans (le_max_right a k) (base_le_foldl_max rest (max a k))
      · exact ih (max a x) k hmem

theorem lookupAddr_mem_keys {α : Type} (l : List (Nat × α)) (k : Nat) (v : α)
    (h : lookupAddr l k = some v) : k ∈ l.map Prod.fst := by
  induction l with
  | nil => cases h
  | cons p rest ih =>
      obtain ⟨k', v'⟩ := p
      by_cases hk : k' = k
      · subst hk; simp
      · simp only [lookupAddr, hk, if_false] at h
        simp [ih h]

theorem dict_key_lt_fresh (h : Heap) (a : Nat) (d : HExpenseDict)
    (hl : lookupAddr h.dicts a = some d) : a < freshAddr h := by
  have hmem : a ∈ h.dicts.map Prod.fst := lookupAddr_mem_keys _ a d hl
  have hle : a ≤ (h.dicts.map Prod.fst ++ h.lists.map Prod.fst).foldl max 0 :=
    le_foldl_max _ 0 a (List.mem_append.mpr (Or.inl hmem))
  simp only [freshAddr]
  omega

/-- C10: _process_expense_data leaves the caller record untouched: after
a successful run on the dict at address a, the dict cell at a and the
tags list cell it points to hold their original values, and the returned
record lives at a different address. -/
theorem process_expense_data_preserves_input (h : Heap) (a : Nat)
    (d : HExpenseDict) (h2 : Heap) (a2 : Nat)
    (hd : lookupAddr h.dicts a = some d)
    (hp : process_expense_data_heap h a = .ok (h2, a2)) :
    lookupAddr h2.dicts a = some d ∧
    (∀ (ta : Nat) (l : List String), d.tags = some ta →
      lookupAddr h.lists ta = some l → lookupAddr h2.lists ta = some l) ∧
    a2 ≠ a := by
  unfold process_expense_data_heap at hp
  rw [hd] at hp
  cases hamt : d.amount with
  | none => simp [hamt] at hp
  | some v =>
  cases htd : toDecimal v with
  | error u2 => simp [hamt, htd] at hp
  | ok q =>
  cases hpd : processDate d.date with
  | error err => simp [hamt, htd, hpd] at hp
  | ok date2 =>
  cases htag : d.tags with
  | none =>
      simp only [hamt, htd, hpd, htag, Except.ok.injEq, Prod.mk.injEq] at hp
      obtain ⟨rfl, rfl⟩ := hp
      refine ⟨lookupAddr_append h.dicts _ a d hd, ?_, ?_⟩
      · intro ta l hta
        cases hta
      · have := dict_key_lt_fresh h a d hd
        omega
  | some ta =>
  cases hll : lookupAddr h.lists ta with
  | none => simp [hamt, htd, hpd, htag, hll] at hp
  | some ts =>
      simp only [hamt, htd, hpd, htag, hll, Except.ok.injEq,
        Prod.mk.injEq] at hp
      obtain ⟨rfl, rfl⟩ := hp
      refine ⟨lookupAddr_append h.dicts _ a d hd, ?_, ?_⟩
      · intro ta0 l _ hl0
        exact lookupAddr_append h.lists _ ta0 l hl0
      · have hlt : a < freshAddr
            { dicts := h.dicts,
              lists := h.lists ++ [(freshAddr h, ts.map (fun t => t.trim.toLower))] } :=
          dict_key_lt_fresh _ a d hd
        omega

/-- Concrete dict cell for the C10 witness: amount 3, tags at address 1. -/
def dictW : HExpenseDict :=
  { amount := some (.num 3), category := some "food",
    date := some (.dt ⟨2025, 4, 15⟩), description := some "d", tags := some 1 }

/-- Concrete heap: the dict at address 0, its tags list at address 1. -/
def heapW : Heap := { dicts := [(0, dictW)], lists := [(1, ["Aa ", "b"])] }

/-- The heap after processing: a new tags list at address 2 and the new
dict at address 3; the original cells at 0 and 1 are unchanged. -/
def heapW2 : Heap :=
  { dicts := [(0, dictW),
      (3, { amount := some (.num (roundHalfEven2 3)), category := some "food",
            date := some (.dt ⟨2025, 4, 15⟩), description := some "d",
            tags := some 2 })],
    lists := [(1, ["Aa ", "b"]),
      (2, ["Aa ", "b"].map (fun t => t.trim.toLower))] }

/-- Witness for C10 on the concrete heap. -/
theorem process_expense_data_preserves_input_witness :
    process_expense_data_heap heapW 0 = .ok (heapW2, 3) ∧
    lookupAddr heapW2.dicts 0 = some dictW ∧
    lookupAddr heapW2.lists 1 = some ["Aa ", "b"] ∧ (3 : Nat) ≠ 0 := by
  have hp : process_expense_data_heap heapW 0 = .ok (heapW2, 3) := by rfl
  refine ⟨hp, ?_, ?_, ?_⟩
  · exact (process_expense_data_preserves_input heapW 0 dictW heapW2 3
      rfl hp).1
  · exact (process_expense_data_preserves_input heapW 0 dictW heapW2 3
      rfl hp).2.1 1 ["Aa ", "b"] rfl rfl
  · exact (process_expense_data_preserves_input heapW 0 dictW heapW2 3
      rfl hp).2.2
